import Mathlib

/-!
Verification of the `html-plugin.ts` HTML/asset injection pipeline
(`src/packages/esbuild-plugin-html/src/html-plugin.ts`).

The TypeScript source is shallowly embedded: pure helper functions become
Lean functions over `String` / `List Char`; the stateful build-end pass
becomes a pure function from an explicit pass input (document children,
build-report outputs, persistent output cache, configuration) to a pass
outcome record; filesystem writes become fields of that record.  External
collaborators (the Node `path` module in posix mode, the WHATWG `URL`
constructor, JS `Set`/array semantics) are modelled by small executable
functions whose doc comments note which platform behavior they capture.
-/

namespace EsbuildHtml

/-- Single quote character, written via its code point. -/
def squote : Char := Char.ofNat 39

/-- Characters matched by the JavaScript regular expression `\s`
(whitespace as used by `skipWhitespace` and `String.prototype.trim`). -/
def jsIsSpace (c : Char) : Bool :=
  [9, 10, 11, 12, 13, 32, 160, 5760, 8192, 8193, 8194, 8195, 8196, 8197,
   8198, 8199, 8200, 8201, 8202, 8232, 8233, 8239, 8287, 12288, 65279].contains c.toNat

/-- JS `String.prototype.trim` on a character list. -/
def trimL (l : List Char) : List Char :=
  ((l.dropWhile jsIsSpace).reverse.dropWhile jsIsSpace).reverse

/-- Embeds `skipWhitespace` (html-plugin.ts lines 565-569): counts the
whitespace characters of `text` starting at `index`; reading past the end
of the string yields `undefined`, which `/\s/` does not match, so the
count stops at the end of the string. -/
def skipWs (text : List Char) (index : Nat) : Nat :=
  ((text.drop index).takeWhile jsIsSpace).length

/-- Whether `pat` occurs in `text` at position `i`. -/
def matchesAt (text pat : List Char) (i : Nat) : Bool :=
  pat.isPrefixOf (text.drop i)

/-- Models JS `String.prototype.indexOf(pat, start)`: the smallest
position `i ≥ start` at which `pat` occurs, `none` when there is no such
occurrence. -/
def indexOfFrom (text pat : List Char) (start : Nat) : Option Nat :=
  (List.range (text.length + 1)).find? (fun i => decide (start ≤ i) && matchesAt text pat i)

/-- The literal token `url` searched for by `parseURLs`. -/
def urlPat : List Char := ['u', 'r', 'l']

/-- Embeds the `closingToken` record (html-plugin.ts lines 515-519):
maps an opening bracket or quote to its closing token; any other key is
absent (`undefined`). -/
def closingToken (c : Char) : Option Char :=
  if c = '(' then some ')'
  else if c = '"' then some '"'
  else if c = squote then some squote
  else none

/-- Result of the inner capture loop of `parseURLs`. -/
structure CaptureState where
  index : Nat
  e : Nat
  stack : List Char
  deriving Repr

/-- Embeds the capture loop of `parseURLs` (html-plugin.ts lines
549-557): while the bracket/quote stack is nonempty and `index` is in
bounds, either pop the stack on the matching closing token (also skipping
whitespace, which is always zero characters here since closing tokens are
not whitespace) or advance the capture end `e`; `index` advances by at
least one each iteration.  The JS stack is a push-to-end array; it is
modelled with the list head as the top of the stack.  `fuel` bounds the
iteration count; `text.length - index` iterations always suffice because
the loop requires `index < text.length` and advances `index`. -/
def captureGo (text : List Char) : Nat → List Char → Nat → Nat → CaptureState
  | 0, stack, index, e => ⟨index, e, stack⟩
  | fuel + 1, stack, index, e =>
    match stack, text[index]? with
    | top :: rest, some c =>
      if closingToken top = some c then
        captureGo text fuel rest (index + skipWs text index + 1) e
      else
        captureGo text fuel (top :: rest) (index + 1) (e + 1)
    | _, _ => ⟨index, e, stack⟩

/-- What one iteration of the outer `while` loop of `parseURLs` does:
stop, continue without a capture, or capture one URL. -/
inductive StepRes where
  | done
  | skip (nextIndex : Nat)
  | captured (nextIndex : Nat) (stack : List Char) (url : List Char)

/-- Embeds the optional-quote `switch` of `parseURLs` (html-plugin.ts
lines 538-543): at position `i4`, a single or double quote is pushed
onto the stack and consumed; anything else (or the end of the string)
leaves stack and position unchanged. -/
def quoteStep (text : List Char) (stack1 : List Char) (i4 : Nat) : List Char × Nat :=
  match text[i4]? with
  | some c => if c = '"' ∨ c = squote then (c :: stack1, i4 + 1) else (stack1, i4)
  | none => (stack1, i4)

/-- Embeds one iteration of the outer `while` loop of `parseURLs`
(html-plugin.ts lines 527-560): search for the literal `url` from the
current index (the loop continues only while the found position is
strictly positive), skip over it and any whitespace, require `(`
(otherwise `continue`), push it, skip whitespace, optionally consume
one quote, skip whitespace, and run the capture loop; the captured span
`text.slice(start, end)` is trimmed. -/
def parseStep (text : List Char) (index : Nat) (stack : List Char) : StepRes :=
  match indexOfFrom text urlPat index with
  | none => .done
  | some j =>
    if j = 0 then .done
    else
      let i2 := j + 3 + skipWs text (j + 3)
      if text[i2]? ≠ some '(' then .skip i2
      else
        let q := quoteStep text ('(' :: stack) (i2 + 1 + skipWs text (i2 + 1))
        let i6 := q.2 + skipWs text q.2
        let r := captureGo text (text.length - i6) q.1 i6 i6
        .captured r.index r.stack (trimL ((text.drop i6).take (r.e - i6)))

/-- Embeds the outer `while` loop of `parseURLs` (html-plugin.ts lines
521-563) by iterating `parseStep`.  The bracket/quote stack is declared
outside the loop in the source and is threaded through accordingly.
`fuel` bounds the number of outer iterations; `text.length + 1` always
suffices (theorem `parseURLs_fuel_bounded`). -/
def parseGo (text : List Char) : Nat → Nat → List Char → List (List Char) → List (List Char)
  | 0, _, _, urls => urls
  | fuel + 1, index, stack, urls =>
    match parseStep text index stack with
    | .done => urls
    | .skip i => parseGo text fuel i stack urls
    | .captured i st url => parseGo text fuel i st (urls ++ [url])

/-- Embeds `parseURLs` (html-plugin.ts lines 521-563) on a character
list: the outer loop run with sufficient fuel. -/
def parseURLsL (text : List Char) : List (List Char) :=
  parseGo text (text.length + 1) 0 [] []

/-- Embeds `parseURLs` on strings. -/
def parseURLs (s : String) : List String :=
  (parseURLsL s.data).map String.mk

/-! ### Model of the Node.js `path` module (posix flavor)

The plugin runs `path` operations on posix-style paths.  The functions
below model the behavior of `path.posix` on the inputs the plugin can
produce; each doc comment names the platform function modelled. -/

/-- Models Node `path.isAbsolute` (posix): a path is absolute when it
starts with a slash. -/
def isAbsolutePath (s : String) : Bool :=
  match s.data with
  | [] => false
  | c :: _ => c = '/'

/-- One step of posix path normalization over segments: empty segments
and `.` are dropped; `..` pops the previous segment when possible (for a
relative path, leading `..` segments are kept).  The accumulator holds
the output segments in reverse order. -/
def normStep (abs : Bool) (acc : List String) (seg : String) : List String :=
  if seg = "" ∨ seg = "." then acc
  else if seg = ".." then
    match acc with
    | [] => if abs then [] else [".."]
    | a :: rest => if a = ".." then seg :: a :: rest else rest
  else seg :: acc

/-- Splits a path into its slash-separated segments. -/
def pathSegs (s : String) : List String :=
  (s.data.splitOn '/').map String.mk

/-- Models Node `path.posix.normalize`: resolves `.` and `..`, collapses
repeated slashes, preserves a single trailing slash of a nonempty
result, and returns `.` for an empty relative result. -/
def pathNormalize (s : String) : String :=
  let abs := isAbsolutePath s
  let segs := ((pathSegs s).foldl (normStep abs) []).reverse
  let core := String.intercalate "/" segs
  let base :=
    if segs = [] then (if abs then "/" else ".")
    else (if abs then "/" ++ core else core)
  if segs ≠ [] ∧ s.data.getLast? = some '/' then base ++ "/" else base

/-- Models Node `path.posix.join`: concatenates the nonempty parts with
slashes and normalizes; all-empty input yields `.`. -/
def pathJoin (a b : String) : String :=
  let parts := [a, b].filter (· ≠ "")
  if parts = [] then "." else pathNormalize (String.intercalate "/" parts)

/-- Normalization as applied by Node `path.resolve`: like
`pathNormalize` but without preserving a trailing slash. -/
def resolveNorm (s : String) : String :=
  let abs := isAbsolutePath s
  let segs := ((pathSegs s).foldl (normStep abs) []).reverse
  let core := String.intercalate "/" segs
  if segs = [] then (if abs then "/" else ".") else (if abs then "/" ++ core else core)

/-- Models Node `path.resolve(base, p)` for its use in the plugin, where
`base` is an absolute directory (the plugin always resolves against
`process.cwd()`-rooted directories): an absolute `p` is normalized on
its own, otherwise `p` is appended to `base` and normalized. -/
def pathResolve2 (base p : String) : String :=
  if isAbsolutePath p then resolveNorm p else resolveNorm (base ++ "/" ++ p)

/-- Drops trailing slashes from a character list. -/
def dropTrailingSlashes (l : List Char) : List Char :=
  (l.reverse.dropWhile (· = '/')).reverse

/-- Position of the last slash in a character list, if any. -/
def lastSlashIdx (l : List Char) : Option Nat :=
  match l.reverse.findIdx? (· = '/') with
  | none => none
  | some k => some (l.length - 1 - k)

/-- Models Node `path.posix.basename` (single-argument form): the part
after the last slash, with trailing slashes ignored. -/
def pathBasename (s : String) : String :=
  let l1 := dropTrailingSlashes s.data
  match lastSlashIdx l1 with
  | none => String.mk l1
  | some i => String.mk (l1.drop (i + 1))

/-- Whether `suffix` is a suffix of `s` (JS `String.prototype.endsWith`). -/
def strEndsWith (s suffix : String) : Bool :=
  suffix.data.isSuffixOf s.data

/-- Models Node `path.posix.basename(p, ext)`: the basename with the
extension stripped when it is a proper suffix distinct from the whole
basename. -/
def pathBasenameExt (p ext : String) : String :=
  let b := pathBasename p
  if ext ≠ "" ∧ b ≠ ext ∧ strEndsWith b ext then
    String.mk (b.data.take (b.data.length - ext.data.length))
  else b

/-- Position of the last occurrence of `c` in `l`, if any. -/
def lastIdxOf (c : Char) (l : List Char) : Option Nat :=
  match l.reverse.findIdx? (· = c) with
  | none => none
  | some k => some (l.length - 1 - k)

/-- Models Node `path.posix.extname` for ordinary file names: the final
`.`-suffix of the part after the last slash; a leading dot or an
all-dots basename (`.`, `..`) yields the empty extension. -/
def pathExtname (s : String) : String :=
  let b := match lastSlashIdx s.data with
    | none => s.data
    | some i => s.data.drop (i + 1)
  if b.all (· = '.') then ""
  else match lastIdxOf '.' b with
    | none => ""
    | some 0 => ""
    | some i => String.mk (b.drop i)

/-- Models Node `path.posix.dirname`: everything before the last slash
(trailing slashes ignored); `.` when there is no slash, `/` when the
last slash is the leading one. -/
def pathDirname (s : String) : String :=
  let l1 := dropTrailingSlashes s.data
  if l1 = [] then (if isAbsolutePath s then "/" else ".")
  else match lastSlashIdx l1 with
    | none => "."
    | some 0 => "/"
    | some i => String.mk (l1.take i)

/-- Whether `pat` occurs as a substring of `s` (JS
`String.prototype.includes`). -/
def containsSub (s pat : String) : Bool :=
  (indexOfFrom s.data pat.data 0).isSome

/-- Whether `pre` is a prefix of `s` (JS `String.prototype.startsWith`). -/
def strStartsWith (s pre : String) : Bool :=
  pre.data.isPrefixOf s.data

/-- Models `new URL(rel, base).href` for its use in the plugin: `base` is an
absolute URL (it contains `://`) and `rel` is a plain file name.  The
reference replaces everything after the last slash of the base path;
a base with no path gains a single slash before the file name.  Query
and fragment handling of the full WHATWG algorithm is not needed for
file-name references and is omitted. -/
def newURLHref (rel base : String) : String :=
  match indexOfFrom base.data "://".data 0 with
  | none => base ++ "/" ++ rel
  | some i =>
    let afterScheme := i + 3
    let l := base.data
    match lastIdxOf '/' (l.drop afterScheme) with
    | none => base ++ "/" ++ rel
    | some k => String.mk (l.take (afterScheme + k + 1)) ++ rel

/-- Models JS `String.prototype.indexOf(c)` for a single character,
encoded as in JS with `-1` for absence. -/
def strIndexOfChar (s : String) (c : Char) : Int :=
  match s.data.findIdx? (· = c) with
  | none => -1
  | some i => (i : Int)

/-- Embeds `isAbsoluteOrURL` (html-plugin.ts lines 463-465). -/
def isAbsoluteOrURL (src : String) : Bool :=
  isAbsolutePath src || containsSub src "://" || strStartsWith src "data:"

/-- Result record of `rebaseAssetURL`. -/
structure RebaseResult where
  basename : String
  rebasedURL : String
  inputPath : String
  deriving DecidableEq, Repr

/-- JS truthiness of an optional string: present and nonempty. -/
def optTruthy : Option String → Bool
  | none => false
  | some s => s ≠ ""

/-- Embeds `rebaseAssetURL` (html-plugin.ts lines 484-513): splits off a
query/fragment suffix using the `indexOf`-based `pathEnd` computation,
resolves the path part against the directory of the template, joins the
basename under `publicPath` (URL join when `publicPath` contains `://`,
filesystem join otherwise, bare basename when `publicPath` is falsy),
and reattaches the suffix. -/
def rebaseAssetURL (inputURL templatePath : String) (publicPath : Option String) :
    RebaseResult :=
  let queryPos := strIndexOfChar inputURL '?'
  let hashPos := strIndexOfChar inputURL '#'
  let pathEnd := if queryPos < 0 then hashPos else if hashPos < 0 then queryPos
    else min queryPos hashPos
  let url := if pathEnd < 0 then inputURL else String.mk (inputURL.data.take pathEnd.toNat)
  let basename := pathBasename url
  let inputPath := pathResolve2 (pathDirname templatePath) url
  let rebased :=
    if optTruthy publicPath then
      let pp := publicPath.getD ""
      if containsSub pp "://" then newURLHref basename pp else pathJoin pp basename
    else basename
  { basename := basename
    rebasedURL := if pathEnd < 0 then rebased
      else rebased ++ String.mk (inputURL.data.drop pathEnd.toNat)
    inputPath := inputPath }

/-- Position of the earliest occurrence of `c` in `s`, if any, as the
spec phrases it. -/
def firstIdxOf (s : String) (c : Char) : Option Nat :=
  s.data.findIdx? (· = c)

/-- Earliest split point as worded by the spec: the earliest occurrence
of `?` or `#`, whichever comes first when both are present, `none` when
neither occurs. -/
def earliestSplitPoint (s : String) : Option Nat :=
  match firstIdxOf s '?', firstIdxOf s '#' with
  | none, none => none
  | some q, none => some q
  | none, some h => some h
  | some q, some h => some (min q h)

/-- Stated from the words of the spec for the rebaser (claim C6): split
the URL before the earliest of `?`/`#`, resolve the path part against
the directory of the template, join the basename under `publicPath`
(URL join for an absolute-URL `publicPath`, filesystem join otherwise,
bare basename when unset), and reattach the original suffix verbatim. -/
def rebaseAssetURLSpec (inputURL templatePath : String) (publicPath : Option String) :
    RebaseResult :=
  let split :=
    match earliestSplitPoint inputURL with
    | none => (inputURL, "")
    | some n => (String.mk (inputURL.data.take n), String.mk (inputURL.data.drop n))
  let url := split.1
  let basename := pathBasename url
  let rebased :=
    if optTruthy publicPath then
      let pp := publicPath.getD ""
      if containsSub pp "://" then newURLHref basename pp else pathJoin pp basename
    else basename
  { basename := basename
    rebasedURL := rebased ++ split.2
    inputPath := pathResolve2 (pathDirname templatePath) url }

/-! ### Model of the parse5 document tree

Only the node kinds the plugin distinguishes are modelled: elements,
text nodes, comments and the doctype.  The non-owning `parentNode`
back-reference of parse5 nodes is not modelled; it is used only for
attachment and never read by the plugin. -/

/-- A parse5 attribute: a name/value pair. -/
structure Attr where
  name : String
  value : String
  deriving DecidableEq, Repr

/-- A parse5 child node. -/
inductive Node where
  | element (tagName : String) (attrs : List Attr) (children : List Node)
  | text (value : String)
  | comment (value : String)
  | doctype

/-- The parse5 `nodeName` of a node (for elements it equals the tag
name). -/
def nodeName : Node → String
  | .element t _ _ => t
  | .text _ => "#text"
  | .comment _ => "#comment"
  | .doctype => "#documentType"

/-- Attributes of a node (elements only). -/
def attrsOf : Node → List Attr
  | .element _ attrs _ => attrs
  | _ => []

/-- Tag name of a node as accessed by the plugin: reading `tagName` on a
non-element yields `undefined`, modelled as `none`. -/
def tagNameOf : Node → Option String
  | .element t _ _ => some t
  | _ => none

/-- Embeds `isElement` (html-plugin.ts lines 419-421): any node whose
`nodeName` is neither `#comment` nor `#text` (so the doctype counts as
an element under this test, exactly as in the source). -/
def isElement (n : Node) : Bool :=
  nodeName n ≠ "#comment" ∧ nodeName n ≠ "#text"

/-- Embeds `isTextNode` (html-plugin.ts lines 423-425). -/
def isTextNode (n : Node) : Bool :=
  nodeName n = "#text"

/-- Embeds `isScript` (html-plugin.ts lines 427-429); comparing the
`tagName` of a non-element with a string is `false` in JS. -/
def isScript (n : Node) : Bool :=
  isElement n && tagNameOf n = some "script"

/-- Embeds `isLinkOrStyle` (html-plugin.ts lines 431-433). -/
def isLinkOrStyle (n : Node) : Bool :=
  isElement n && (tagNameOf n = some "style" ∨ tagNameOf n = some "link")

/-- Applies a node predicate the way the source applies it to a
possibly out-of-bounds array access: `undefined` fails `isElement` and
therefore every predicate built on it. -/
def optPred (pred : Node → Bool) : Option Node → Bool
  | none => false
  | some n => pred n

/-- Embeds the loop of `findLastChildIndex` (html-plugin.ts lines
440-449) from position `i` downward: the loop starts at
`childNodes.length` (one past the end), returns the first position from
the top whose node satisfies the predicate, and falls back to `0`. -/
def findLastFrom (children : List Node) (pred : Node → Bool) : Nat → Nat
  | 0 => 0
  | i + 1 => if optPred pred children[i + 1]? then i + 1 else findLastFrom children pred i

/-- Embeds `findLastChildIndex` (html-plugin.ts lines 440-449). -/
def findLastChildIndex (children : List Node) (pred : Node → Bool) : Nat :=
  findLastFrom children pred children.length

/-- Models JS `Array.prototype.findIndex`: first matching position, or
`-1` when no element matches. -/
def findIndexJS (pred : Node → Bool) (children : List Node) : Int :=
  match children.findIdx? pred with
  | none => -1
  | some i => (i : Int)

/-- Effective insertion position of JS `Array.prototype.splice(start,
0, ...items)`: a negative `start` counts from the end (clamped to 0), a
positive one is clamped to the length. -/
def spliceIndex (len : Nat) (start : Int) : Nat :=
  if start < 0 then ((len : Int) + start).toNat else min start.toNat len

/-- Models JS `childNodes.splice(start, 0, ...items)` as list
insertion at the effective splice position. -/
def spliceInsert (l : List Node) (start : Int) (items : List Node) : List Node :=
  let p := spliceIndex l.length start
  l.take p ++ items ++ l.drop p

/-- Embeds the `linkIndex` computation (html-plugin.ts lines 315-318):
`below` takes `findLastChildIndex(head, isLinkOrStyle) + 1`, any other
position takes `findIndex(isLinkOrStyle)`. -/
def linkInsertIndex (linkPosition : String) (headChildren : List Node) : Int :=
  if linkPosition = "below" then ((findLastChildIndex headChildren isLinkOrStyle : Int) + 1)
  else findIndexJS isLinkOrStyle headChildren

/-- Embeds the `scriptIndex` computation (html-plugin.ts lines 322-324):
a placement ending in `below` takes `findLastChildIndex(parent,
isScript) + 1`, otherwise `findIndex(isScript)`. -/
def scriptInsertIndex (scriptPlacement : String) (parentChildren : List Node) : Int :=
  if strEndsWith scriptPlacement "below" then
    ((findLastChildIndex parentChildren isScript : Int) + 1)
  else findIndexJS isScript parentChildren

/-! ### Tag synthesis -/

/-- Embeds `collect` (html-plugin.ts lines 480-482): keeps the truthy
entries. -/
def collect (values : List (Option Attr)) : List Attr :=
  values.filterMap id

/-- Configuration shared by `createLinkElement` and
`createScriptElement` (the `CreateElementOptions` of the source, minus
the parent node, which is only stored as a back-reference).  The
`integrity` field models the configured hash algorithm together with
the file-content digest as an oracle from the absolute output path to
the final attribute value, since `calculateIntegrityHash` reads the
file from disk. -/
structure ElemArgs where
  basedir : String
  crossorigin : Option String
  deferOpt : Option Bool
  integrity : Option (String → String)
  publicPath : Option String
  useModuleType : Bool

/-- Embeds `createLinkElement` (html-plugin.ts lines 370-391). -/
def createLinkElement (a : ElemArgs) (outputPath : String) : Node :=
  let absOutputPath := pathResolve2 a.basedir outputPath
  let filename := pathBasename absOutputPath
  let url := if optTruthy a.publicPath then pathJoin (a.publicPath.getD "") filename
    else filename
  Node.element "link" (collect [
    some ⟨"href", url⟩,
    some ⟨"rel", "stylesheet"⟩,
    a.crossorigin.map (fun c => ⟨"crossorigin", c⟩),
    a.integrity.map (fun h => ⟨"integrity", h absOutputPath⟩)]) []

/-- Embeds `createScriptElement` (html-plugin.ts lines 393-417): the
`type="module"` attribute is attached exactly when the build format is
ESM, and `defer=""` is attached exactly when the format is not ESM and
the `defer` option is `true`. -/
def createScriptElement (a : ElemArgs) (outputPath : String) : Node :=
  let absOutputPath := pathResolve2 a.basedir outputPath
  let filename := pathBasename absOutputPath
  let url := if optTruthy a.publicPath then pathJoin (a.publicPath.getD "") filename
    else filename
  Node.element "script" (collect [
    some ⟨"src", url⟩,
    (if a.useModuleType then some ⟨"type", "module"⟩ else none),
    (if a.useModuleType = false ∧ a.deferOpt = some true then some ⟨"defer", ""⟩ else none),
    a.crossorigin.map (fun c => ⟨"crossorigin", c⟩),
    a.integrity.map (fun h => ⟨"integrity", h absOutputPath⟩)]) []

/-! ### Asset discovery and rebasing -/

/-- Embeds `getUrl` (html-plugin.ts lines 457-461): the first attribute
named `href` or `src` of an element node. -/
def getUrl (n : Node) : Option Attr :=
  if isElement n then (attrsOf n).find? (fun a => a.name = "href" ∨ a.name = "src")
  else none

/-- Replaces the value of the first `href`/`src` attribute (the
attribute object `getUrl` returns is mutated in place in the source). -/
def replaceUrlAttrValue (attrs : List Attr) (v : String) : List Attr :=
  match attrs with
  | [] => []
  | a :: rest =>
    if a.name = "href" ∨ a.name = "src" then { a with value := v } :: rest
    else a :: replaceUrlAttrValue rest v

/-- Writes a new value into the `href`/`src` attribute of a node. -/
def setUrl (n : Node) (v : String) : Node :=
  match n with
  | .element t attrs c => .element t (replaceUrlAttrValue attrs v) c
  | other => other

/-- Embeds the per-tag body of the asset loop (html-plugin.ts lines
225-237): a tag without a `href`/`src` attribute, or whose URL is
classified by `isAbsoluteOrURL`, is skipped (no mutation, nothing
queued); otherwise the attribute is rewritten to the rebased URL and
the (input path, output path) pair is queued. -/
def rewriteTag (templatePath : String) (publicPath : Option String) (absOutDir : String)
    (n : Node) : Node × List (String × String) :=
  match getUrl n with
  | none => (n, [])
  | some a =>
    if isAbsoluteOrURL a.value then (n, [])
    else
      let r := rebaseAssetURL a.value templatePath publicPath
      (setUrl n r.rebasedURL, [(r.inputPath, pathResolve2 absOutDir r.basename)])

/-- Rewrites every child whose `nodeName` equals `kind`, collecting the
queued copy pairs in document order (the source collects the matching
tags with `filter` and then mutates each in place). -/
def rewriteChildren (kind : String) (templatePath : String) (publicPath : Option String)
    (absOutDir : String) : List Node → List Node × List (String × String)
  | [] => ([], [])
  | n :: rest =>
    let r := rewriteChildren kind templatePath publicPath absOutDir rest
    if nodeName n = kind then
      let t := rewriteTag templatePath publicPath absOutDir n
      (t.1 :: r.1, t.2 ++ r.2)
    else (n :: r.1, r.2)

/-- Models JS `String.prototype.replace(pat, repl)` with a string
pattern: replaces the first occurrence only (replacement-pattern `$`
escapes do not occur in rebased URLs and are not modelled). -/
def replaceFirstStr (s pat repl : String) : String :=
  match indexOfFrom s.data pat.data 0 with
  | none => s
  | some i => String.mk (s.data.take i ++ repl.data ++ s.data.drop (i + pat.data.length))

/-- Embeds the per-URL body of the `<style>` loop (html-plugin.ts lines
242-253): an empty (falsy) URL or one classified by `isAbsoluteOrURL`
is skipped; otherwise the first occurrence of the URL in the style text
is replaced by the rebased URL and the copy pair is queued. -/
def styleStep (templatePath : String) (publicPath : Option String) (absOutDir : String)
    (acc : String × List (String × String)) (url : String) : String × List (String × String) :=
  if url = "" then acc
  else if isAbsoluteOrURL url then acc
  else
    let r := rebaseAssetURL url templatePath publicPath
    (replaceFirstStr acc.1 url r.rebasedURL,
     acc.2 ++ [(r.inputPath, pathResolve2 absOutDir r.basename)])

/-- Embeds the `<style>` text processing (html-plugin.ts lines 239-254):
the URLs extracted by `parseURLs` from the original text are folded
over the evolving text. -/
def processStyleText (templatePath : String) (publicPath : Option String) (absOutDir : String)
    (t : String) : String × List (String × String) :=
  (parseURLs t).foldl (styleStep templatePath publicPath absOutDir) (t, [])

/-- Replaces the value of the first text child of an element (the
source mutates the `TextNode` found by `childNodes.find(isTextNode)`). -/
def setFirstTextChild : List Node → String → List Node
  | [], _ => []
  | .text _ :: rest, v => .text v :: rest
  | n :: rest, v => n :: setFirstTextChild rest v

/-- First text child of a node, as found by
`tag.childNodes.find(isTextNode)` on an element. -/
def firstTextChild : Node → Option String
  | .element _ _ children =>
    match children.find? isTextNode with
    | some (.text v) => some v
    | _ => none
  | _ => none

/-- Embeds the `<style>` loop (html-plugin.ts lines 239-254) over the
head children: every `style` child with a text child has its text
rewritten; others are untouched. -/
def rewriteStyles (templatePath : String) (publicPath : Option String) (absOutDir : String) :
    List Node → List Node × List (String × String)
  | [] => ([], [])
  | n :: rest =>
    let r := rewriteStyles templatePath publicPath absOutDir rest
    if nodeName n = "style" then
      match firstTextChild n with
      | none => (n :: r.1, r.2)
      | some t =>
        let p := processStyleText templatePath publicPath absOutDir t
        match n with
        | .element tg attrs children => (.element tg attrs (setFirstTextChild children p.1) :: r.1, p.2 ++ r.2)
        | other => (other :: r.1, r.2)
    else (n :: r.1, r.2)

/-! ### Output matching, change detection and the build-end pass -/

/-- Models a JS `Set` built from a list: first occurrence wins,
insertion order preserved. -/
def jsSetOfList (l : List String) : List String :=
  l.foldl (fun acc o => if acc.contains o then acc else acc ++ [o]) []

/-- Embeds the first cache loop (html-plugin.ts lines 267-272): every
current output missing from the cache is appended and marks the pass
modified. -/
def addNewOutputs (cache current : List String) : List String × Bool :=
  current.foldl (fun acc o => if acc.1.contains o then acc else (acc.1 ++ [o], true))
    (cache, false)

/-- Embeds both cache loops (html-plugin.ts lines 265-278): new outputs
are added, then entries absent from the current set are deleted
(iterating a JS `Set` while deleting the visited entry is equivalent to
filtering); either kind of change marks the pass modified. -/
def updateCache (cache current : List String) : List String × Bool :=
  let a := addNewOutputs cache current
  let kept := a.1.filter (fun o => current.contains o)
  let removedAny := a.1.any (fun o => !current.contains o)
  (kept, a.2 || removedAny)

/-- Input of one build-end pass: the head/body children of the parsed
template (the document adapter of lines 208-215 runs on the freshly
parsed template before this point), the output paths of the build report,
the persistent output cache, and the captured configuration. -/
structure PassInput where
  headChildren : List Node
  bodyChildren : List Node
  metaOutputs : List String
  cache : List String
  entries : List String
  templatePath : String
  publicPath : Option String
  absOutDir : String
  basedir : String
  filename : String
  ignoreAssets : Bool
  linkPosition : String
  scriptPlacement : String
  crossorigin : Option String
  deferOpt : Option Bool
  integrity : Option (String → String)
  useModuleType : Bool

/-- Embeds the output selection (html-plugin.ts lines 257-259): report
outputs whose extension-less basename matches a configured entry. -/
def matchedOutputs (inp : PassInput) : List String :=
  inp.metaOutputs.filter (fun o => inp.entries.contains (pathBasenameExt o (pathExtname o)))

/-- Embeds `cssOutput` (html-plugin.ts line 260). -/
def cssOutputsOf (inp : PassInput) : List String :=
  (matchedOutputs inp).filter (fun o => strEndsWith o ".css")

/-- Embeds `jsOutput` (html-plugin.ts line 261). -/
def jsOutputsOf (inp : PassInput) : List String :=
  (matchedOutputs inp).filter (fun o => strEndsWith o ".js")

/-- Embeds `currentOutputs` (html-plugin.ts line 266): the set of
matched CSS and JS output paths. -/
def currentOutputsOf (inp : PassInput) : List String :=
  jsSetOfList (cssOutputsOf inp ++ jsOutputsOf inp)

/-- Result of the asset discovery phase of a pass. -/
structure DiscoverResult where
  headChildren : List Node
  bodyChildren : List Node
  assets : List (String × String)

/-- Embeds the asset discovery block (html-plugin.ts lines 217-255):
skipped entirely under `ignoreAssets`; otherwise head `<link>`s, head
`<script>`s and body `<script>`s are rebased in that order, then head
`<style>` texts. -/
def discover (inp : PassInput) : DiscoverResult :=
  if inp.ignoreAssets then ⟨inp.headChildren, inp.bodyChildren, []⟩
  else
    let l := rewriteChildren "link" inp.templatePath inp.publicPath inp.absOutDir inp.headChildren
    let hs := rewriteChildren "script" inp.templatePath inp.publicPath inp.absOutDir l.1
    let bs := rewriteChildren "script" inp.templatePath inp.publicPath inp.absOutDir inp.bodyChildren
    let st := rewriteStyles inp.templatePath inp.publicPath inp.absOutDir hs.1
    ⟨st.1, bs.1, l.2 ++ hs.2 ++ bs.2 ++ st.2⟩

/-- The element-creation configuration a pass derives from its input. -/
def elemArgsOf (inp : PassInput) : ElemArgs :=
  { basedir := inp.basedir
    crossorigin := inp.crossorigin
    deferOpt := inp.deferOpt
    integrity := inp.integrity
    publicPath := inp.publicPath
    useModuleType := inp.useModuleType }

/-- What an emitting pass produces: the spliced head/body children, the
synthesized elements and their insertion indices, the HTML file written
and the queued asset copies (html-plugin.ts lines 284-332). -/
structure Emission where
  headOut : List Node
  bodyOut : List Node
  links : List Node
  scripts : List Node
  linkIndex : Int
  scriptIndex : Int
  writtenFile : String
  copies : List (String × String)

/-- Embeds the emitting tail of the pass (html-plugin.ts lines
284-332): link elements for the CSS outputs are spliced into the head,
script elements for the JS outputs into the head or body according to
the placement (when scripts also target the head, their insertion index
is computed after the links have been spliced, as in the source), and
the serialized HTML plus the queued asset copies are written. -/
def emitPass (inp : PassInput) (d : DiscoverResult) (css js : List String) : Emission :=
  let args := elemArgsOf inp
  let links := css.map (createLinkElement args)
  let scripts := js.map (createScriptElement args)
  let linkIndex := linkInsertIndex inp.linkPosition d.headChildren
  let headSpliced := spliceInsert d.headChildren linkIndex links
  let scriptsToHead := strStartsWith inp.scriptPlacement "head"
  let scriptParent := if scriptsToHead then headSpliced else d.bodyChildren
  let scriptIndex := scriptInsertIndex inp.scriptPlacement scriptParent
  let parentSpliced := spliceInsert scriptParent scriptIndex scripts
  { headOut := if scriptsToHead then parentSpliced else headSpliced
    bodyOut := if scriptsToHead then d.bodyChildren else parentSpliced
    links := links
    scripts := scripts
    linkIndex := linkIndex
    scriptIndex := scriptIndex
    writtenFile := pathResolve2 inp.absOutDir inp.filename
    copies := d.assets }

/-- Outcome of one build-end pass: the new persistent cache, the
modified flag, and the emission — `none` exactly when the pass returned
at the `if (!modified) return` fast path (html-plugin.ts line 282),
in which case nothing is spliced, written or copied. -/
structure PassOutcome where
  newCache : List String
  modified : Bool
  emission : Option Emission

/-- Embeds the `onEnd` pass body (html-plugin.ts lines 200-333) from
the point where the freshly parsed document is available: asset
discovery and rebasing, output matching, cache update, and — only when
the output set changed — tag synthesis and emission. -/
def runOnEnd (inp : PassInput) : PassOutcome :=
  let d := discover inp
  let css := cssOutputsOf inp
  let js := jsOutputsOf inp
  let u := updateCache inp.cache (currentOutputsOf inp)
  if u.2 = false then ⟨u.1, u.2, none⟩
  else ⟨u.1, u.2, some (emitPass inp d css js)⟩

/-- Final cache after a pass whose awaited writes may fail: the cache
loops (html-plugin.ts lines 265-278) run before the writes are awaited
(line 332), so the resulting cache does not depend on whether the
emission completes; the unused `ioOk` parameter records the fate of
the writes. -/
def runPassFinalCache (inp : PassInput) (_ioOk : Bool) : List String :=
  (runOnEnd inp).newCache

/-! ### Plugin setup -/

/-- The esbuild entry-point option: an array of paths or a name-keyed
record (html-plugin.ts lines 184-186). -/
inductive EntryPoints where
  | paths (entries : List String)
  | named (entries : List (String × String))

/-- The build options the plugin reads (html-plugin.ts lines 166-172). -/
structure BuildOptions where
  absWorkingDir : Option String
  entryPoints : Option EntryPoints
  format : Option String
  publicPath : Option String
  outdir : Option String

/-- How far `setup` gets before its first asynchronous file operation
(html-plugin.ts lines 165-198). -/
inductive SetupOutcome where
  | noEntryPoints
  | missingOutdir
  | templateReadError (templatePath : String)
  | ok (templatePath : String) (entries : List String)
  deriving DecidableEq, Repr

/-- Embeds the synchronous head of `setup` (html-plugin.ts lines
165-198): with no `entryPoints` the setup returns silently; otherwise a
falsy `outdir` raises the configuration error; only then is the
template read (`readOk` stands for the outcome of that first file
operation). -/
def setupModel (template : String) (bopts : BuildOptions) (readOk : Bool) : SetupOutcome :=
  let basedir := bopts.absWorkingDir.getD "/cwd"
  match bopts.entryPoints with
  | none => .noEntryPoints
  | some eps =>
    if optTruthy bopts.outdir = false then .missingOutdir
    else
      let templatePath := pathResolve2 basedir template
      let entries :=
        match eps with
        | .paths l => l.map (fun e => pathBasenameExt e (pathExtname e))
        | .named l => (l.map Prod.fst).map (fun e => pathBasenameExt e (pathExtname e))
      if readOk = false then .templateReadError templatePath
      else .ok templatePath entries

/-! ### Lemmas about the CSS URL scanner -/

theorem indexOfFrom_none_of_lt (text pat : List Char) (start : Nat)
    (h : text.length < start) : indexOfFrom text pat start = none := by
  unfold indexOfFrom
  apply List.find?_eq_none.mpr
  intro i hi
  simp only [List.mem_range] at hi
  simp only [Bool.and_eq_true, decide_eq_true_eq, not_and]
  intro hsi
  omega

theorem indexOfFrom_some_ge (text pat : List Char) (start j : Nat)
    (h : indexOfFrom text pat start = some j) : start ≤ j := by
  unfold indexOfFrom at h
  have hp := List.find?_some h
  simp only [Bool.and_eq_true, decide_eq_true_eq] at hp
  exact hp.1

theorem captureGo_index_ge (text : List Char) :
    ∀ fuel stack index e, index ≤ (captureGo text fuel stack index e).index := by
  intro fuel
  induction fuel with
  | zero => intro stack index e; exact Nat.le_refl index
  | succ f ih =>
    intro stack index e
    cases stack with
    | nil => simp [captureGo]
    | cons top rest =>
      cases htext : text[index]? with
      | none => simp [captureGo, htext]
      | some c =>
        simp only [captureGo, htext]
        by_cases hc : closingToken top = some c
        · simp only [hc, if_pos rfl]
          calc index ≤ index + skipWs text index + 1 := by omega
            _ ≤ _ := ih rest (index + skipWs text index + 1) e
        · simp only [if_neg hc]
          calc index ≤ index + 1 := by omega
            _ ≤ _ := ih (top :: rest) (index + 1) (e + 1)

theorem quoteStep_snd_ge (text : List Char) (stack1 : List Char) (i4 : Nat) :
    i4 ≤ (quoteStep text stack1 i4).2 := by
  unfold quoteStep
  cases text[i4]? with
  | none => exact Nat.le_refl i4
  | some c =>
    simp only []
    split
    · omega
    · omega

theorem parseStep_done_of_lt (text : List Char) (index : Nat) (stack : List Char)
    (h : text.length < index) : parseStep text index stack = .done := by
  unfold parseStep
  rw [indexOfFrom_none_of_lt text urlPat index h]

theorem parseStep_skip_ge (text : List Char) (index : Nat) (stack : List Char) (i : Nat)
    (h : parseStep text index stack = .skip i) : index + 3 ≤ i := by
  unfold parseStep at h
  cases hj : indexOfFrom text urlPat index with
  | none => simp only [hj] at h; cases h
  | some j =>
    simp only [hj] at h
    have hji : index ≤ j := indexOfFrom_some_ge text urlPat index j hj
    by_cases hj0 : j = 0
    · simp only [if_pos hj0] at h; cases h
    · simp only [if_neg hj0] at h
      split at h
      · cases h
        omega
      · exact absurd h (by simp)

theorem parseStep_captured_ge (text : List Char) (index : Nat) (stack : List Char)
    (i : Nat) (st url : List Char)
    (h : parseStep text index stack = .captured i st url) : index + 4 ≤ i := by
  unfold parseStep at h
  cases hj : indexOfFrom text urlPat index with
  | none => simp only [hj] at h; cases h
  | some j =>
    simp only [hj] at h
    have hji : index ≤ j := indexOfFrom_some_ge text urlPat index j hj
    by_cases hj0 : j = 0
    · simp only [if_pos hj0] at h; cases h
    · simp only [if_neg hj0] at h
      split at h
      · exact absurd h (by simp)
      · cases h
        have hq := quoteStep_snd_ge text ('(' :: stack)
          (j + 3 + skipWs text (j + 3) + 1 + skipWs text (j + 3 + skipWs text (j + 3) + 1))
        have hcap := captureGo_index_ge text
          (text.length -
            ((quoteStep text ('(' :: stack)
                (j + 3 + skipWs text (j + 3) + 1 +
                  skipWs text (j + 3 + skipWs text (j + 3) + 1))).2 +
              skipWs text (quoteStep text ('(' :: stack)
                (j + 3 + skipWs text (j + 3) + 1 +
                  skipWs text (j + 3 + skipWs text (j + 3) + 1))).2))
          (quoteStep text ('(' :: stack)
            (j + 3 + skipWs text (j + 3) + 1 +
              skipWs text (j + 3 + skipWs text (j + 3) + 1))).1
          ((quoteStep text ('(' :: stack)
              (j + 3 + skipWs text (j + 3) + 1 +
                skipWs text (j + 3 + skipWs text (j + 3) + 1))).2 +
            skipWs text (quoteStep text ('(' :: stack)
              (j + 3 + skipWs text (j + 3) + 1 +
                skipWs text (j + 3 + skipWs text (j + 3) + 1))).2)
          ((quoteStep text ('(' :: stack)
              (j + 3 + skipWs text (j + 3) + 1 +
                skipWs text (j + 3 + skipWs text (j + 3) + 1))).2 +
            skipWs text (quoteStep text ('(' :: stack)
              (j + 3 + skipWs text (j + 3) + 1 +
                skipWs text (j + 3 + skipWs text (j + 3) + 1))).2)
        omega

theorem parseGo_step (text : List Char) :
    ∀ fuel index stack urls, text.length + 3 ≤ index + 3 * fuel →
      parseGo text (fuel + 1) index stack urls = parseGo text fuel index stack urls := by
  intro fuel
  induction fuel with
  | zero =>
    intro index stack urls h
    have hdone : parseStep text index stack = .done :=
      parseStep_done_of_lt text index stack (by omega)
    simp only [parseGo, hdone]
  | succ f ih =>
    intro index stack urls h
    show parseGo text (f + 1 + 1) index stack urls = parseGo text (f + 1) index stack urls
    simp only [parseGo]
    cases hs : parseStep text index stack with
    | done => rfl
    | skip i =>
      have hge := parseStep_skip_ge text index stack i hs
      exact ih i stack urls (by omega)
    | captured i st url =>
      have hge := parseStep_captured_ge text index stack i st url hs
      exact ih i st (urls ++ [url]) (by omega)

theorem parseGo_add (text : List Char) :
    ∀ d fuel index stack urls, text.length + 3 ≤ index + 3 * fuel →
      parseGo text (fuel + d) index stack urls = parseGo text fuel index stack urls := by
  intro d
  induction d with
  | zero => intro fuel index stack urls _; rfl
  | succ k ih =>
    intro fuel index stack urls h
    have h1 : fuel + (k + 1) = (fuel + k) + 1 := by omega
    rw [h1, parseGo_step text (fuel + k) index stack urls (by omega)]
    exact ih fuel index stack urls h

/-- C8: the CSS URL scanner terminates on every finite input with work
bounded by the input length: running the outer loop with any fuel of at
least `text.length + 1` iterations yields the same result as
`parseURLsL`, so the scan is complete within an input-length-bounded
number of iterations, on well-formed and malformed input alike (the
embedding is a total function, so no input makes it throw). -/
theorem parseURLs_fuel_bounded (text : List Char) (fuel : Nat)
    (h : text.length + 1 ≤ fuel) :
    parseGo text fuel 0 [] [] = parseURLsL text := by
  obtain ⟨d, rfl⟩ : ∃ d, fuel = (text.length + 1) + d := ⟨fuel - (text.length + 1), by omega⟩
  exact parseGo_add text d (text.length + 1) 0 [] [] (by omega)

/-- Witness for C8 at a concrete malformed input (an unterminated
`url(`). -/
theorem parseURLs_fuel_bounded_witness :
    " url( unterminated".data.length + 1 ≤ 100 ∧
      parseGo " url( unterminated".data 100 0 [] [] = parseURLsL " url( unterminated".data :=
  ⟨by decide, parseURLs_fuel_bounded " url( unterminated".data 100 (by decide)⟩

/-- The exact input string of claim C3,
`background: url( quote a/b.png quote ) , url(c.png)` with single
quotes in place of the word quote. -/
def c3input : String :=
  "background: url( " ++ String.mk [squote] ++ "a/b.png" ++ String.mk [squote] ++
    " ) , url(c.png)"

/-- C3 (code bug): on the input of the claim the scanner does not strip the
closing quote of the first `url()` token: because whitespace separates
the closing quote from the `)`, the capture end is advanced past the
quote character, so the first captured payload is `a/b.png` followed by
a single-quote character rather than `a/b.png`. -/
theorem parseURLs_c3_keeps_trailing_quote :
    parseURLs c3input = ["a/b.png" ++ String.mk [squote], "c.png"] ∧
      parseURLs c3input ≠ ["a/b.png", "c.png"] := by
  constructor
  · decide
  · decide

/-! ### Rebasing and tag synthesis claims -/

/-- C6: the rebaser agrees everywhere with the description in the spec —
the path portion is split off before the earliest occurrence of `?` or
`#` (the whole string when neither occurs), the remainder is resolved
against the directory of the template, the basename is joined under
`publicPath` (URL join exactly when `publicPath` contains `://`,
filesystem join otherwise, bare basename when unset), and the original
query/fragment suffix is reattached verbatim. -/
theorem rebaseAssetURL_refines_spec (inputURL templatePath : String)
    (publicPath : Option String) :
    rebaseAssetURL inputURL templatePath publicPath =
      rebaseAssetURLSpec inputURL templatePath publicPath := by
  unfold rebaseAssetURL rebaseAssetURLSpec earliestSplitPoint firstIdxOf strIndexOfChar
  cases hq : inputURL.data.findIdx? (fun c => c = '?') with
  | none =>
    cases hh : inputURL.data.findIdx? (fun c => c = '#') with
    | none => simp [hq, hh]
    | some hpos =>
      have h4 : ¬ ((hpos : Int) < 0) := by omega
      simp [hq, hh, h4, Int.toNat_natCast]
  | some qpos =>
    cases hh : inputURL.data.findIdx? (fun c => c = '#') with
    | none =>
      have h3 : ¬ ((qpos : Int) < 0) := by omega
      simp [hq, hh, h3, Int.toNat_natCast]
    | some hpos =>
      have h1 : (min (qpos : Int) (hpos : Int)).toNat = min qpos hpos := by omega
      have h2 : ¬ (min (qpos : Int) (hpos : Int) < 0) := by omega
      have h3 : ¬ ((qpos : Int) < 0) := by omega
      have h4 : ¬ ((hpos : Int) < 0) := by omega
      simp [hq, hh, h1, h2, h3, h4]

/-- C7: a URL classified by `isAbsoluteOrURL` (absolute filesystem
path, contains `://`, or `data:` URI) is never rewritten and never
queued for copying, both in the tag loop and in the `<style>` loop;
every other URL found in a tag is rebased in place and queued. -/
theorem skip_urls_never_rewritten (tp : String) (pp : Option String) (od : String)
    (n : Node) (a : Attr) (hu : getUrl n = some a) :
    (isAbsoluteOrURL a.value = true → rewriteTag tp pp od n = (n, [])) ∧
    (isAbsoluteOrURL a.value = false →
      rewriteTag tp pp od n =
        (setUrl n (rebaseAssetURL a.value tp pp).rebasedURL,
         [((rebaseAssetURL a.value tp pp).inputPath,
           pathResolve2 od (rebaseAssetURL a.value tp pp).basename)])) ∧
    (∀ t as url, url ≠ "" → isAbsoluteOrURL url = true →
      styleStep tp pp od (t, as) url = (t, as)) ∧
    (∀ t as url, url ≠ "" → isAbsoluteOrURL url = false →
      styleStep tp pp od (t, as) url =
        (replaceFirstStr t url (rebaseAssetURL url tp pp).rebasedURL,
         as ++ [((rebaseAssetURL url tp pp).inputPath,
           pathResolve2 od (rebaseAssetURL url tp pp).basename)])) := by
  refine ⟨?_, ?_, ?_, ?_⟩
  · intro h
    unfold rewriteTag
    rw [hu]
    simp [h]
  · intro h
    unfold rewriteTag
    rw [hu]
    simp [h]
  · intro t as url hne habs
    unfold styleStep
    simp [hne, habs]
  · intro t as url hne habs
    unfold styleStep
    simp [hne, habs]

/-- Concrete node used as the C7 witness: a script tag with an
external URL. -/
def c7node : Node := .element "script" [⟨"src", "https://x.example/y.js"⟩] []

/-- Witness for C7: the external-URL script tag is left untouched and
queues no copy. -/
theorem skip_urls_never_rewritten_witness :
    rewriteTag "/w/src/index.html" none "/w/dist" c7node = (c7node, []) :=
  (skip_urls_never_rewritten "/w/src/index.html" none "/w/dist" c7node
    ⟨"src", "https://x.example/y.js"⟩ (by decide)).1 (by decide)

/-- C5: a synthesized script element carries `type="module"` (and never
any `defer` attribute) when the output format is ESM, regardless of the
`defer` option; otherwise it carries `defer=""` exactly when the
`defer` option is `true`. -/
theorem script_module_defer (a : ElemArgs) (outputPath : String) :
    (a.useModuleType = true →
      (Attr.mk "type" "module") ∈ attrsOf (createScriptElement a outputPath) ∧
      ∀ v, (Attr.mk "defer" v) ∉ attrsOf (createScriptElement a outputPath)) ∧
    (a.useModuleType = false →
      ((Attr.mk "defer" "") ∈ attrsOf (createScriptElement a outputPath) ↔
        a.deferOpt = some true)) := by
  obtain ⟨bd, cr, de, ig, pp, um⟩ := a
  unfold createScriptElement collect attrsOf
  cases um with
  | true =>
    constructor
    · intro _
      constructor
      · cases cr <;> cases ig <;> simp
      · intro v
        cases cr <;> cases ig <;> simp
    · intro h
      exact absurd h (by simp)
  | false =>
    constructor
    · intro h
      exact absurd h (by simp)
    · intro _
      cases de with
      | none => cases cr <;> cases ig <;> simp
      | some b => cases b <;> cases cr <;> cases ig <;> simp

/-- Concrete configuration for the C5 witness: ESM output with
`defer: true` configured. -/
def c5args : ElemArgs :=
  { basedir := "/w"
    crossorigin := none
    deferOpt := some true
    integrity := none
    publicPath := none
    useModuleType := true }

/-- Witness for C5: with ESM format and `defer: true`, the synthesized
script has `type="module"` and no `defer` attribute. -/
theorem script_module_defer_witness :
    (Attr.mk "type" "module") ∈ attrsOf (createScriptElement c5args "dist/app.js") ∧
      (Attr.mk "defer" "") ∉ attrsOf (createScriptElement c5args "dist/app.js") :=
  ⟨((script_module_defer c5args "dist/app.js").1 rfl).1,
   ((script_module_defer c5args "dist/app.js").1 rfl).2 ""⟩

/-- C10: with a truthy `publicPath`, both synthesized tag URLs are the
filesystem-style join of `publicPath` and the output basename — there
is no URL-join branch in tag synthesis, so an absolute-URL `publicPath`
is joined as a filesystem path (collapsing its double slash), unlike
the URL join of the rebaser. -/
theorem tag_url_filesystem_join (a : ElemArgs) (outputPath : String) (pp : String)
    (hpp : a.publicPath = some pp) (hne : pp ≠ "") :
    (attrsOf (createLinkElement a outputPath)).head? =
        some ⟨"href", pathJoin pp (pathBasename (pathResolve2 a.basedir outputPath))⟩ ∧
    (attrsOf (createScriptElement a outputPath)).head? =
        some ⟨"src", pathJoin pp (pathBasename (pathResolve2 a.basedir outputPath))⟩ ∧
    pathJoin "https://cdn.example.com/" "a.css" = "https:/cdn.example.com/a.css" ∧
    newURLHref "a.css" "https://cdn.example.com/" = "https://cdn.example.com/a.css" := by
  refine ⟨?_, ?_, by decide, by decide⟩
  · unfold createLinkElement collect attrsOf
    simp [optTruthy, hpp, hne]
  · unfold createScriptElement collect attrsOf
    simp [optTruthy, hpp, hne]

/-- Concrete configuration for the C10 witness: an absolute-URL
`publicPath`. -/
def c10args : ElemArgs :=
  { basedir := "/w"
    crossorigin := none
    deferOpt := none
    integrity := none
    publicPath := some "https://cdn.example.com/"
    useModuleType := false }

/-- Witness for C10: the link href produced under an absolute-URL
`publicPath` is the filesystem join (with the `//` collapsed), not the
URL join. -/
theorem tag_url_filesystem_join_witness :
    (attrsOf (createLinkElement c10args "dist/app.css")).head? =
        some ⟨"href", pathJoin "https://cdn.example.com/"
          (pathBasename (pathResolve2 "/w" "dist/app.css"))⟩ ∧
      pathJoin "https://cdn.example.com/" "a.css" = "https:/cdn.example.com/a.css" :=
  ⟨(tag_url_filesystem_join c10args "dist/app.css" "https://cdn.example.com/"
      rfl (by decide)).1,
   (tag_url_filesystem_join c10args "dist/app.css" "https://cdn.example.com/"
      rfl (by decide)).2.2.1⟩

/-! ### Tag placement claims -/

theorem findLastFrom_eq_zero (children : List Node) (pred : Node → Bool)
    (h : ∀ n ∈ children, pred n = false) : ∀ i, findLastFrom children pred i = 0 := by
  intro i
  induction i with
  | zero => rfl
  | succ k ih =>
    unfold findLastFrom
    have hp : optPred pred children[k + 1]? = false := by
      cases hg : children[k + 1]? with
      | none => rfl
      | some n =>
        have := h n (List.getElem?_mem hg)
        simp [optPred, this]
    rw [hp]
    simpa using ih

theorem findIndexJS_eq_neg_one (children : List Node) (pred : Node → Bool)
    (h : ∀ n ∈ children, pred n = false) : findIndexJS pred children = -1 := by
  unfold findIndexJS
  have : children.findIdx? pred = none := by
    simp only [List.findIdx?_eq_none_iff]
    exact h
  rw [this]

/-- A head child that is neither a link, style nor script. -/
def titleNode : Node := .element "title" [] []

/-- A synthesized stylesheet link. -/
def sampleLink : Node := .element "link" [⟨"href", "app.css"⟩, ⟨"rel", "stylesheet"⟩] []

/-- Counterexample to C2 as stated: in a head with one `<title>` and no
link/style, the `below` policy computes insertion index 1 (the
`findLastChildIndex` fallback 0, plus one) — not 0 — and the splice
therefore puts the new link after the title, not at the start; the
`above` policy computes the not-found value -1 of `findIndex`, also not 0. -/
theorem c2_counterexample :
    linkInsertIndex "below" [titleNode] = 1 ∧ (1 : Int) ≠ 0 ∧
      linkInsertIndex "above" [titleNode] = -1 ∧ (-1 : Int) ≠ 0 ∧
      spliceInsert [titleNode] (linkInsertIndex "below" [titleNode]) [sampleLink] =
        [titleNode, sampleLink] := by
  refine ⟨by decide, by decide, by decide, by decide, rfl⟩

/-- C2 (amended): for a parent with no tag of the relevant kind, the
`below` policy computes insertion index 1 and the `above` policy
computes -1; only when the parent has no children at all do both splice
at effective position 0 (via the index normalization of splice). -/
theorem insert_index_no_existing_tags (children : List Node) (pl : String)
    (hls : ∀ n ∈ children, isLinkOrStyle n = false)
    (hsc : ∀ n ∈ children, isScript n = false) :
    linkInsertIndex "below" children = 1 ∧
    linkInsertIndex "above" children = -1 ∧
    (strEndsWith pl "below" = true → scriptInsertIndex pl children = 1) ∧
    (strEndsWith pl "below" = false → scriptInsertIndex pl children = -1) ∧
    (children = [] →
      spliceIndex children.length (linkInsertIndex "below" children) = 0 ∧
      spliceIndex children.length (linkInsertIndex "above" children) = 0) := by
  have hlast : findLastChildIndex children isLinkOrStyle = 0 :=
    findLastFrom_eq_zero children isLinkOrStyle hls children.length
  have hlasts : findLastChildIndex children isScript = 0 :=
    findLastFrom_eq_zero children isScript hsc children.length
  have hidx : findIndexJS isLinkOrStyle children = -1 :=
    findIndexJS_eq_neg_one children isLinkOrStyle hls
  have hidxs : findIndexJS isScript children = -1 :=
    findIndexJS_eq_neg_one children isScript hsc
  have h1 : linkInsertIndex "below" children = 1 := by
    unfold linkInsertIndex
    rw [if_pos rfl, hlast]
    rfl
  have h2 : linkInsertIndex "above" children = -1 := by
    unfold linkInsertIndex
    rw [if_neg (by decide), hidx]
  refine ⟨h1, h2, ?_, ?_, ?_⟩
  · intro hb
    unfold scriptInsertIndex
    rw [if_pos hb, hlasts]
    rfl
  · intro hb
    unfold scriptInsertIndex
    rw [if_neg (by simp [hb]), hidxs]
  · intro he
    subst he
    rw [h1, h2]
    exact ⟨by decide, by decide⟩

/-- Witness for the amended C2 on the concrete one-title head. -/
theorem insert_index_no_existing_tags_witness :
    linkInsertIndex "below" [titleNode] = 1 ∧
      linkInsertIndex "above" [titleNode] = -1 :=
  ⟨(insert_index_no_existing_tags [titleNode] "head-below" (by decide) (by decide)).1,
   (insert_index_no_existing_tags [titleNode] "head-below" (by decide) (by decide)).2.1⟩

/-! ### Change detection and pass-level claims -/

theorem addNewOutputs_id (cache : List String) :
    ∀ current, (∀ o ∈ current, cache.contains o = true) →
      addNewOutputs cache current = (cache, false) := by
  intro current
  induction current with
  | nil => intro _; rfl
  | cons o l ih =>
    intro h
    have ho : o ∈ cache := List.elem_iff.mp (h o (by simp))
    have hrest := ih (fun x hx => h x (by simp [hx]))
    unfold addNewOutputs at hrest ⊢
    simpa [ho] using hrest

theorem foldl_add_subset (l : List String) :
    ∀ (acc : List String × Bool) (x : String), x ∈ acc.1 →
      x ∈ (l.foldl (fun acc o => if acc.1.contains o then acc else (acc.1 ++ [o], true)) acc).1 := by
  induction l with
  | nil => intro acc x hx; exact hx
  | cons o t ih =>
    intro acc x hx
    simp only [List.foldl_cons]
    apply ih
    by_cases hc : o ∈ acc.1
    · simp [hc, hx]
    · simp [hc, hx]

theorem foldl_add_mem (l : List String) :
    ∀ (acc : List String × Bool) (x : String), x ∈ l →
      x ∈ (l.foldl (fun acc o => if acc.1.contains o then acc else (acc.1 ++ [o], true)) acc).1 := by
  induction l with
  | nil => intro acc x hx; cases hx
  | cons o t ih =>
    intro acc x hx
    simp only [List.foldl_cons]
    rcases List.mem_cons.mp hx with hxo | hxt
    · subst hxo
      apply foldl_add_subset
      by_cases hc : x ∈ acc.1
      · simp [hc]
      · simp [hc]
    · exact ih _ x hxt

theorem mem_updateCache_iff (cache current : List String) (x : String) :
    x ∈ (updateCache cache current).1 ↔ x ∈ current := by
  unfold updateCache
  constructor
  · intro hx
    simp only [List.mem_filter] at hx
    exact List.elem_iff.mp hx.2
  · intro hx
    simp only [List.mem_filter]
    refine ⟨?_, List.elem_iff.mpr hx⟩
    unfold addNewOutputs
    exact foldl_add_mem current (cache, false) x hx

theorem updateCache_id (cache current : List String)
    (h1 : ∀ o ∈ current, cache.contains o = true)
    (h2 : ∀ o ∈ cache, current.contains o = true) :
    updateCache cache current = (cache, false) := by
  unfold updateCache
  rw [addNewOutputs_id cache current h1]
  have h2m : ∀ o ∈ cache, o ∈ current := fun o ho => List.elem_iff.mp (h2 o ho)
  have hf : cache.filter (fun o => current.contains o) = cache := by
    apply List.filter_eq_self.mpr
    intro a ha
    simpa using h2m a ha
  have ha : cache.any (fun o => !current.contains o) = false := by
    simp only [List.any_eq_false]
    intro x hx
    simp [h2m x hx]
  simp only [hf, ha]
  rfl

/-- C1: when the set of matched CSS and JS output paths equals the
persistent output cache (no additions, no removals), the pass marks
nothing modified, leaves the cache unchanged and returns before tag
synthesis: the emission is `none`, so no elements are spliced, no HTML
file is written and no asset copies are issued. -/
theorem pass_no_emission_when_outputs_unchanged (inp : PassInput)
    (h1 : (currentOutputsOf inp).all (fun o => inp.cache.contains o) = true)
    (h2 : inp.cache.all (fun o => (currentOutputsOf inp).contains o) = true) :
    (runOnEnd inp).emission = none ∧ (runOnEnd inp).modified = false ∧
      (runOnEnd inp).newCache = inp.cache := by
  have hu : updateCache inp.cache (currentOutputsOf inp) = (inp.cache, false) :=
    updateCache_id _ _ (List.all_eq_true.mp h1) (List.all_eq_true.mp h2)
  unfold runOnEnd
  rw [hu]
  exact ⟨rfl, rfl, rfl⟩

/-- Pass input for the C1 witness: the cache already holds exactly the
single matched output, as after a completed first pass. -/
def c1input : PassInput :=
  { headChildren := []
    bodyChildren := []
    metaOutputs := ["dist/app.js"]
    cache := ["dist/app.js"]
    entries := ["app"]
    templatePath := "/w/src/index.html"
    publicPath := none
    absOutDir := "/w/dist"
    basedir := "/w"
    filename := "index.html"
    ignoreAssets := true
    linkPosition := "below"
    scriptPlacement := "head-below"
    crossorigin := none
    deferOpt := none
    integrity := none
    useModuleType := false }

/-- Witness for C1: a second pass over an unchanged output set emits
nothing. -/
theorem pass_no_emission_witness :
    (runOnEnd c1input).emission = none :=
  (pass_no_emission_when_outputs_unchanged c1input (by decide) (by decide)).1

/-- The final cache only depends on the pass input, never on whether
the awaited writes succeed. -/
theorem runOnEnd_newCache_eq (inp : PassInput) :
    (runOnEnd inp).newCache = (updateCache inp.cache (currentOutputsOf inp)).1 := by
  simp only [runOnEnd]
  split
  · rfl
  · rfl

/-- Pass input for the C4 counterexample: an empty cache (no emission
has ever completed) and one matched output. -/
def c4input : PassInput :=
  { headChildren := []
    bodyChildren := []
    metaOutputs := ["dist/app.js"]
    cache := []
    entries := ["app"]
    templatePath := "/w/src/index.html"
    publicPath := none
    absOutDir := "/w/dist"
    basedir := "/w"
    filename := "index.html"
    ignoreAssets := true
    linkPosition := "below"
    scriptPlacement := "head-below"
    crossorigin := none
    deferOpt := none
    integrity := none
    useModuleType := false }

/-- Counterexample to C4 as stated: the cache loops run before the
writes are awaited, so after a pass whose emission fails (`ioOk =
false`) the cache holds the new output set `["dist/app.js"]` rather
than the outputs of the most recent completed emission (the empty
set — no emission ever completed here, yet the pass attempted one). -/
theorem c4_counterexample :
    runPassFinalCache c4input false = ["dist/app.js"] ∧
      (runOnEnd c4input).emission.isSome = true ∧
      runPassFinalCache c4input false ≠ ([] : List String) := by
  refine ⟨by decide, by decide, by decide⟩

/-- C4 (amended): after every pass — whether or not its emission
completes — the persistent cache holds exactly the matched CSS+JS
output set of that pass, because the cache is updated before the
writes are awaited. -/
theorem cache_reflects_latest_pass (inp : PassInput) (ioOk : Bool) :
    ∀ x, x ∈ runPassFinalCache inp ioOk ↔ x ∈ currentOutputsOf inp := by
  intro x
  unfold runPassFinalCache
  rw [runOnEnd_newCache_eq]
  exact mem_updateCache_iff inp.cache (currentOutputsOf inp) x

/-- Witness for the amended C4 at a concrete input: after the failing
pass the cache contains exactly the matched output. -/
theorem cache_reflects_latest_pass_witness :
    ("dist/app.js" ∈ runPassFinalCache c4input false ↔
      "dist/app.js" ∈ currentOutputsOf c4input) :=
  cache_reflects_latest_pass c4input false "dist/app.js"

/-! ### Setup claims -/

/-- Counterexample to C9 as stated: a build configuration with no
entry points and no output directory makes `setup` return silently
(the `if (!entryPoints) return` guard runs first), so no fatal
configuration error is raised even though `outdir` is absent. -/
theorem c9_counterexample :
    setupModel "index.html" ⟨none, none, none, none, none⟩ true = .noEntryPoints ∧
      SetupOutcome.noEntryPoints ≠ SetupOutcome.missingOutdir := by
  exact ⟨rfl, by decide⟩

/-- C9 (amended): whenever entry points are configured and the output
directory is absent (or empty, which is equally falsy), `setup` raises
the fatal configuration error, and it does so before the template file
is read: the outcome is the same whether or not the read would
succeed. -/
theorem setup_missing_outdir_fatal (template : String) (bopts : BuildOptions)
    (r1 r2 : Bool) (hep : bopts.entryPoints ≠ none)
    (hod : optTruthy bopts.outdir = false) :
    setupModel template bopts r1 = .missingOutdir ∧
      setupModel template bopts r1 = setupModel template bopts r2 := by
  unfold setupModel
  cases heps : bopts.entryPoints with
  | none => exact absurd heps hep
  | some eps => simp [hod]

/-- Witness for the amended C9 at a concrete configuration. -/
theorem setup_missing_outdir_fatal_witness :
    setupModel "index.html"
        ⟨some "/w", some (.paths ["src/app.ts"]), some "esm", none, none⟩ true =
      .missingOutdir :=
  (setup_missing_outdir_fatal "index.html"
    ⟨some "/w", some (.paths ["src/app.ts"]), some "esm", none, none⟩ true false
    (by simp) (by decide)).1

end EsbuildHtml
